import Mathlib

/-!
Verification development for the geminiquizmaster repository.

The embedding covers, translated from the TypeScript source:
* `src/services/geminiService.ts` — `generateQuiz` and `generateStudyGuide`.
  The external model call is represented by a `GenOutcome` input (the call
  either threw, or produced a raw response text).  The bracket extraction
  `text.match(/\[[\s\S]*\]/)` is embedded as `extractSpan`, and `JSON.parse`
  as the executable fuel-based parser `jsonParse` over a `Json` value type.
* `src/components/QuizGame.tsx` — the in-quiz session state machine
  (`handleOptionClick`, `handleTimeOut`, `handleNext`) as an explicit
  event-step function over `QuizState`.
* the application component (`handleQuizComplete`, `handleDeleteQuiz`) —
  scoring and history deletion.  JavaScript number arithmetic on the small
  quantities involved is embedded as exact rational arithmetic, with
  `Math.round` embedded as floor of x + 1/2 (round half up).
-/

namespace GQM

/-- JSON values as produced by `JSON.parse`.  Numbers keep their validated
source lexeme: no claim computes with numeric values, only with shapes. -/
inductive Json where
  | null : Json
  | bool (b : Bool) : Json
  | num (lexeme : String) : Json
  | str (s : String) : Json
  | arr (elems : List Json) : Json
  | obj (members : List (String × Json)) : Json

/-- Whitespace accepted between JSON tokens by `JSON.parse`. -/
def jsonWs (c : Char) : Bool :=
  c = ' ' || c = '\t' || c = '\n' || c = '\r'

def skipWs (cs : List Char) : List Char :=
  cs.dropWhile jsonWs

def isHexDigitCh (c : Char) : Bool :=
  c.isDigit || ('a' ≤ c && c ≤ 'f') || ('A' ≤ c && c ≤ 'F')

def hexVal (c : Char) : Nat :=
  if c.isDigit then c.toNat - '0'.toNat
  else if 'a' ≤ c && c ≤ 'f' then c.toNat - 'a'.toNat + 10
  else c.toNat - 'A'.toNat + 10

/-- Single-character JSON string escapes. -/
def escChar (e : Char) : Option Char :=
  if e = '\"' then some '\"'
  else if e = '\\' then some '\\'
  else if e = '/' then some '/'
  else if e = 'b' then some (Char.ofNat 8)
  else if e = 'f' then some (Char.ofNat 12)
  else if e = 'n' then some '\n'
  else if e = 'r' then some '\r'
  else if e = 't' then some '\t'
  else none

/-- Body of a JSON string after the opening quote: returns the decoded
characters and the input remaining after the closing quote.  Unescaped
control characters are rejected, as `JSON.parse` rejects them. -/
def parseStringBody : List Char → Option (List Char × List Char)
  | [] => none
  | '\"' :: rest => some ([], rest)
  | '\\' :: 'u' :: h1 :: h2 :: h3 :: h4 :: rest =>
    if isHexDigitCh h1 && isHexDigitCh h2 && isHexDigitCh h3 && isHexDigitCh h4 then
      (parseStringBody rest).map fun p =>
        (Char.ofNat (((hexVal h1 * 16 + hexVal h2) * 16 + hexVal h3) * 16 + hexVal h4) :: p.1,
         p.2)
    else none
  | '\\' :: e :: rest =>
    (escChar e).bind fun d => (parseStringBody rest).map fun p => (d :: p.1, p.2)
  | c :: rest =>
    if c.toNat < 32 then none
    else (parseStringBody rest).map fun p => (c :: p.1, p.2)

def takeDigits (cs : List Char) : List Char × List Char :=
  (cs.takeWhile Char.isDigit, cs.dropWhile Char.isDigit)

/-- Optional fraction part: a dot followed by one or more digits. -/
def parseFracPart (cs : List Char) : Option (List Char × List Char) :=
  match cs with
  | '.' :: t =>
    let p := takeDigits t
    if p.1.isEmpty then none else some ('.' :: p.1, p.2)
  | _ => some ([], cs)

/-- Optional exponent part: e or E, optional sign, one or more digits. -/
def parseExpPart (cs : List Char) : Option (List Char × List Char) :=
  match cs with
  | c :: t =>
    if c = 'e' || c = 'E' then
      match t with
      | s :: t2 =>
        if s = '+' || s = '-' then
          let p := takeDigits t2
          if p.1.isEmpty then none else some (c :: s :: p.1, p.2)
        else
          let p := takeDigits t
          if p.1.isEmpty then none else some (c :: p.1, p.2)
      | [] => none
    else some ([], cs)
  | [] => some ([], cs)

/-- JSON number token: optional minus, integer part with no leading zero,
optional fraction and exponent.  Returns the lexeme and the rest. -/
def parseNumber (cs : List Char) : Option (List Char × List Char) :=
  let sp : List Char × List Char :=
    match cs with
    | '-' :: t => (['-'], t)
    | _ => ([], cs)
  let intRes : Option (List Char × List Char) :=
    match sp.2 with
    | '0' :: t =>
      match t with
      | d :: _ => if d.isDigit then none else some (['0'], t)
      | [] => some (['0'], [])
    | d :: t =>
      if d.isDigit then
        let p := takeDigits (d :: t)
        some (p.1, p.2)
      else none
    | [] => none
  match intRes with
  | none => none
  | some (ip, r1) =>
    match parseFracPart r1 with
    | none => none
    | some (fp, r2) =>
      match parseExpPart r2 with
      | none => none
      | some (ep, r3) => some (sp.1 ++ ip ++ fp ++ ep, r3)

/-- Combined parse result of the fueled parser: a value, array elements, or
object members. -/
inductive PR where
  | val (v : Json) : PR
  | elems (l : List Json) : PR
  | mems (l : List (String × Json)) : PR

/-- Fueled recursive descent for JSON, embedding `JSON.parse`.  Mode 0
parses one value, mode 1 the elements after a non-empty array opening,
mode 2 the members after a non-empty object opening. -/
def parseF : Nat → Nat → List Char → Option (PR × List Char)
  | 0, _, _ => none
  | fuel + 1, 0, cs =>
    match skipWs cs with
    | [] => none
    | c :: rest =>
      if c = 'n' then
        match rest with
        | 'u' :: 'l' :: 'l' :: r => some (.val .null, r)
        | _ => none
      else if c = 't' then
        match rest with
        | 'r' :: 'u' :: 'e' :: r => some (.val (.bool true), r)
        | _ => none
      else if c = 'f' then
        match rest with
        | 'a' :: 'l' :: 's' :: 'e' :: r => some (.val (.bool false), r)
        | _ => none
      else if c = '\"' then
        (parseStringBody rest).map fun p => (.val (.str (String.mk p.1)), p.2)
      else if c = '[' then
        match skipWs rest with
        | ']' :: r => some (.val (.arr []), r)
        | r2 =>
          match parseF fuel 1 r2 with
          | some (.elems l, r3) => some (.val (.arr l), r3)
          | _ => none
      else if c = '{' then
        match skipWs rest with
        | '}' :: r => some (.val (.obj []), r)
        | r2 =>
          match parseF fuel 2 r2 with
          | some (.mems l, r3) => some (.val (.obj l), r3)
          | _ => none
      else
        (parseNumber (c :: rest)).map fun p => (.val (.num (String.mk p.1)), p.2)
  | fuel + 1, 1, cs =>
    match parseF fuel 0 cs with
    | some (.val v, r) =>
      (match skipWs r with
       | ',' :: r2 =>
         (match parseF fuel 1 r2 with
          | some (.elems l, r3) => some (.elems (v :: l), r3)
          | _ => none)
       | ']' :: r2 => some (.elems [v], r2)
       | _ => none)
    | _ => none
  | fuel + 1, _, cs =>
    match skipWs cs with
    | '\"' :: r =>
      (match parseStringBody r with
       | none => none
       | some (k, r2) =>
         match skipWs r2 with
         | ':' :: r3 =>
           (match parseF fuel 0 r3 with
            | some (.val v, r4) =>
              (match skipWs r4 with
               | ',' :: r5 =>
                 (match parseF fuel 2 r5 with
                  | some (.mems l, r6) => some (.mems ((String.mk k, v) :: l), r6)
                  | _ => none)
               | '}' :: r5 => some (.mems [(String.mk k, v)], r5)
               | _ => none)
            | _ => none)
         | _ => none)
    | _ => none

/-- `JSON.parse`: parse one value and require only whitespace after it. -/
def jsonParse (cs : List Char) : Option Json :=
  match parseF (2 * cs.length + 2) 0 cs with
  | some (.val v, r) => if (skipWs r).isEmpty then some v else none
  | _ => none

/-- The span selected by `text.match(/\[[\s\S]*\]/)`: from the first
opening bracket of the text through the last closing bracket (the
quantifier is greedy), or failure when no such span exists. -/
def extractSpan (cs : List Char) : Option (List Char) :=
  if (((cs.dropWhile (fun c => c != '[')).reverse.dropWhile (fun c => c != ']')).reverse).isEmpty
  then none
  else some (((cs.dropWhile (fun c => c != '[')).reverse.dropWhile (fun c => c != ']')).reverse)

/-- Outcome of the external generative-model call: the awaited call chain
either threw (network or service failure) or yielded a raw response text. -/
inductive GenOutcome where
  | failure : GenOutcome
  | response (text : List Char) : GenOutcome

/-- Members of the synthetic fallback record built in the catch branch of
`generateQuiz`. -/
def fallbackMembers : List (String × Json) :=
  [("question",
    .str "The AI could not process this PDF/Topic. Please try a shorter text or check your API Key."),
   ("options", .arr [.str "Error", .str "Try Again", .str "Check Key", .str "Refresh"]),
   ("answer", .str "Try Again")]

/-- The single synthetic question returned by `generateQuiz` on failure. -/
def fallbackQuestion : Json := .obj fallbackMembers

/-- `generateQuiz`: on a successful call, extract the first-to-last bracket
span of the response and return `JSON.parse` of it; any failure (external
call threw, no bracket span, or the span does not parse) is caught and
replaced by a one-element array holding the synthetic retry question. -/
def generateQuiz (o : GenOutcome) : Json :=
  match o with
  | .failure => .arr [fallbackQuestion]
  | .response text =>
    match extractSpan text with
    | none => .arr [fallbackQuestion]
    | some span =>
      match jsonParse span with
      | some v => v
      | none => .arr [fallbackQuestion]

/-- The failure class of `generateQuiz`: the external call threw, the
response holds no bracket span, or the extracted span fails to parse. -/
def generationFails (o : GenOutcome) : Bool :=
  match o with
  | .failure => true
  | .response text =>
    match extractSpan text with
    | none => true
    | some span => (jsonParse span).isNone

/-- `generateStudyGuide`: the response text on success, a static message on
any failure of the external call.  The topic and score only shape the
prompt sent to the external service. -/
def generateStudyGuide (topic : String) (score : Int) (o : GenOutcome) : String :=
  match o, topic, score with
  | .response text, _, _ => String.mk text
  | .failure, _, _ => "Unable to generate study guide at this time."

/-- Member lookup in a parsed JSON object.  `JSON.parse` keeps the last
occurrence of a duplicated key, hence the reverse search. -/
def lookupMem (ms : List (String × Json)) (k : String) : Option Json :=
  (ms.reverse.find? (fun m => m.1 == k)).map (fun m => m.2)

def asStr : Json → Option String
  | .str s => some s
  | _ => none

/-- A number lexeme denoting an integer: optional minus then digits only. -/
def isIntLexeme (s : String) : Bool :=
  match s.toList with
  | '-' :: ds => !ds.isEmpty && ds.all Char.isDigit
  | ds => !ds.isEmpty && ds.all Char.isDigit

/-- The `QuizQuestion` record shape of `src/types.ts`: integer `id`, prompt
`question`, string `options`, a `correctAnswer` equal to exactly one
option's text, and an `explanation`. -/
def isQuizQuestionShaped (j : Json) : Bool :=
  match j with
  | .obj ms =>
    (match lookupMem ms "id" with
     | some (.num lx) => isIntLexeme lx
     | _ => false) &&
    (match lookupMem ms "question" with
     | some (.str _) => true
     | _ => false) &&
    (match lookupMem ms "options" with
     | some (.arr os) => os.all (fun o => (asStr o).isSome)
     | _ => false) &&
    (match lookupMem ms "correctAnswer", lookupMem ms "options" with
     | some (.str ca), some (.arr os) => (os.filterMap asStr).count ca == 1
     | _, _ => false) &&
    (match lookupMem ms "explanation" with
     | some (.str _) => true
     | _ => false)
  | _ => false

/-- `QuizQuestion` of `src/types.ts`. -/
structure QuizQuestion where
  id : Int
  question : String
  options : List String
  correctAnswer : String
  explanation : String
deriving DecidableEq

/-- `UserAnswer` of `src/types.ts`. -/
structure UserAnswer where
  questionId : Int
  questionText : String
  selectedOption : String
  correctAnswer : String
  isCorrect : Bool
deriving DecidableEq

/-- `SavedQuiz` of `src/types.ts`. -/
structure SavedQuiz where
  id : String
  topic : String
  date : String
  score : Int
  totalQuestions : Nat
  questions : List QuizQuestion
  answers : List UserAnswer
deriving DecidableEq

/-- The component state of `QuizGame`: the five `useState` cells plus a
`completed` flag marking that `onComplete` fired and the session ended
(the component is then unmounted, so no further events reach it).  The
countdown interval carries no state of its own here: a timer expiry is an
event, and the `isAnswered` guard inside `handleOptionClick` is what makes
a late or duplicate expiry harmless, exactly as in the source. -/
structure QuizState where
  questions : List QuizQuestion
  currentIndex : Nat
  selectedOption : Option String
  isAnswered : Bool
  answers : List UserAnswer
  streak : Nat
  completed : Bool
deriving DecidableEq

/-- Initial component state: index 0, nothing selected, no answers. -/
def initState (qs : List QuizQuestion) : QuizState :=
  { questions := qs
    currentIndex := 0
    selectedOption := none
    isAnswered := false
    answers := []
    streak := 0
    completed := false }

/-- `handleOptionClick`: early return when already answered; otherwise mark
the question answered, compute correctness by string equality with the
current question's `correctAnswer`, update the streak, and append the
`UserAnswer` (recording the sentinel text `Time Out` instead of the passed
option when the invocation was not user initiated).  Indexing past the end
of the question list would fault in the source; the model leaves the state
unchanged there, and every theorem about this branch carries an in-bounds
hypothesis. -/
def handleOptionClick (o : String) (userInitiated : Bool) (s : QuizState) : QuizState :=
  if s.isAnswered then s
  else
    match s.questions[s.currentIndex]? with
    | none => s
    | some q =>
      let isCorrect := o == q.correctAnswer
      { s with
        selectedOption := some o
        isAnswered := true
        streak := if isCorrect then s.streak + 1 else 0
        answers := s.answers ++
          [{ questionId := q.id
             questionText := q.question
             selectedOption := if userInitiated then o else "Time Out"
             correctAnswer := q.correctAnswer
             isCorrect := isCorrect }] }

/-- `handleTimeOut`: clears the interval and submits the timeout sentinel
identifier as a non-user-initiated option click. -/
def handleTimeOut (s : QuizState) : QuizState :=
  handleOptionClick "__TIMEOUT__" false s

/-- `handleNext`: advance to the next question, or fire `onComplete` with
the recorded answers when the current question is the last one. -/
def handleNext (s : QuizState) : QuizState :=
  if s.currentIndex < s.questions.length - 1 then
    { s with
      currentIndex := s.currentIndex + 1
      selectedOption := none
      isAnswered := false }
  else
    { s with completed := true }

/-- Events the component can receive: a user click on an option button, an
expiry of the countdown interval, and a click on the advance button. -/
inductive QuizEvent where
  | click (o : String) : QuizEvent
  | timeout : QuizEvent
  | next : QuizEvent
deriving DecidableEq

/-- One delivered event.  After completion the component is unmounted and
events no longer reach it.  The advance button is rendered only inside the
`isAnswered` block of the component's markup, so a `next` event can only be
delivered while `isAnswered` holds; the delivery guard models that render
condition, while `handleNext` itself is translated unguarded, as in the
source. -/
def step (s : QuizState) (e : QuizEvent) : QuizState :=
  if s.completed then s
  else
    match e with
    | .click o => handleOptionClick o true s
    | .timeout => handleTimeOut s
    | .next => if s.isAnswered then handleNext s else s

/-- Events that record an answer (anything but the advance button). -/
def answeringEvent : QuizEvent → Bool
  | .next => false
  | _ => true

/-- States the mounted component can reach from its initial state. -/
inductive Reachable (qs : List QuizQuestion) : QuizState → Prop where
  | refl : Reachable qs (initState qs)
  | tail {s : QuizState} (h : Reachable qs s) (e : QuizEvent) : Reachable qs (step s e)

/-- `Math.round` on the nonnegative values scored here: floor of x + 1/2,
rounding halves up.  JavaScript number arithmetic on these small counts is
embedded as exact rational arithmetic. -/
def jsMathRound (x : ℚ) : ℤ :=
  (x + 1 / 2).floor

/-- `handleQuizComplete` of the application component: build the
`SavedQuiz` record (score, metadata, embedded questions and answers) and
prepend it to the saved-quiz collection; the collection is mirrored to
local storage by an effect.  The record id and date come from the clock and
are inputs here. -/
def handleQuizComplete (qid topic date : String) (questions : List QuizQuestion)
    (answers : List UserAnswer) (prev : List SavedQuiz) : List SavedQuiz :=
  let score := jsMathRound
    (((answers.filter (fun a => a.isCorrect)).length : ℚ) / (questions.length : ℚ) * 100)
  { id := qid
    topic := topic
    date := date
    score := score
    totalQuestions := questions.length
    questions := questions
    answers := answers } :: prev

/-- `handleDeleteQuiz`: keep the saved quizzes whose id differs. -/
def handleDeleteQuiz (qid : String) (prev : List SavedQuiz) : List SavedQuiz :=
  prev.filter (fun q => q.id != qid)

/-! Helper lemmas about `dropWhile`, the bracket extraction and the parser. -/

lemma dropWhile_append_of_all {α : Type} (p : α → Bool) (l1 l2 : List α)
    (h : ∀ a ∈ l1, p a = true) :
    (l1 ++ l2).dropWhile p = l2.dropWhile p := by
  induction l1 with
  | nil => simp
  | cons a t ih =>
    have ha : p a = true := h a (by simp)
    simp only [List.cons_append, List.dropWhile_cons, ha, if_true]
    exact ih (fun b hb => h b (by simp [hb]))

lemma dropWhile_cons_of_false {α : Type} (p : α → Bool) (a : α) (l : List α)
    (h : p a = false) :
    (a :: l).dropWhile p = a :: l := by
  simp [List.dropWhile_cons, h]

lemma mem_of_mem_dropWhile {α : Type} (p : α → Bool) (l : List α) (a : α)
    (h : a ∈ l.dropWhile p) : a ∈ l := by
  induction l with
  | nil => simp at h
  | cons b t ih =>
    by_cases hb : p b = true
    · simp only [List.dropWhile_cons, hb, if_true] at h
      exact List.mem_cons_of_mem b (ih h)
    · simp only [List.dropWhile_cons, hb, if_false] at h
      exact h

lemma dropWhile_head_false {α : Type} (p : α → Bool) (l : List α) (c : α) (t : List α)
    (h : l.dropWhile p = c :: t) : p c = false := by
  induction l with
  | nil => simp at h
  | cons b u ih =>
    by_cases hb : p b = true
    · simp only [List.dropWhile_cons, hb, if_true] at h
      exact ih h
    · simp only [List.dropWhile_cons, hb, if_false] at h
      cases h
      simpa using hb

lemma exists_prefix_dropWhile {α : Type} (p : α → Bool) (l : List α) :
    ∃ pre, pre ++ l.dropWhile p = l := by
  induction l with
  | nil => exact ⟨[], rfl⟩
  | cons b u ih =>
    by_cases hb : p b = true
    · obtain ⟨pre, hpre⟩ := ih
      exact ⟨b :: pre, by simp [List.dropWhile_cons, hb, hpre]⟩
    · exact ⟨[], by simp [List.dropWhile_cons, hb]⟩

/-- A span selected by the bracket match starts with an opening bracket. -/
lemma extractSpan_head (cs r : List Char) (h : extractSpan cs = some r) :
    ∃ t, r = '[' :: t := by
  unfold extractSpan at h
  set s := cs.dropWhile (fun c => c != '[') with hs
  set d := s.reverse.dropWhile (fun c => c != ']') with hd
  by_cases he : d.reverse.isEmpty = true
  · rw [if_pos he] at h
    simp at h
  · rw [if_neg he] at h
    obtain ⟨pre, hpre⟩ := exists_prefix_dropWhile (fun c => c != ']') s.reverse
    rw [← hd] at hpre
    have hsrev : s = d.reverse ++ pre.reverse := by
      have := congrArg List.reverse hpre
      simpa [List.reverse_append] using this.symm
    cases hrev : d.reverse with
    | nil => rw [hrev] at he; simp at he
    | cons c0 t0 =>
      have hs0 : s = c0 :: (t0 ++ pre.reverse) := by rw [hsrev, hrev]; simp
      have hc0 : (fun c => c != '[') c0 = false :=
        dropWhile_head_false _ cs c0 _ (by rw [← hs, hs0])
      have : c0 = '[' := by simpa using hc0
      subst this
      rw [hrev] at h
      exact ⟨t0, by injection h with h2; exact h2.symm⟩

/-- Skipping whitespace over a non-whitespace head is the identity. -/
lemma skipWs_cons_of_false (c : Char) (t : List Char) (h : jsonWs c = false) :
    skipWs (c :: t) = c :: t := by
  simp [skipWs, List.dropWhile_cons, h]

/-- Parsing a value from input that starts with an opening bracket yields
an array whenever it succeeds. -/
lemma parseF_bracket_arr (f : Nat) (t r : List Char) (v : Json)
    (h : parseF f 0 ('[' :: t) = some (.val v, r)) : ∃ l, v = .arr l := by
  cases f with
  | zero => simp [parseF] at h
  | succ n =>
    rw [parseF] at h
    rw [skipWs_cons_of_false '[' t (by decide)] at h
    simp only [Char.reduceEq, if_false, if_true, reduceIte] at h
    split at h
    · injection h with h1
      injection h1 with hv hr
      injection hv with hv2
      exact ⟨[], hv2.symm⟩
    · split at h
      · rename_i l r3 heq
        injection h with h1
        injection h1 with hv hr
        injection hv with hv2
        exact ⟨l, hv2.symm⟩
      · simp at h

/-- `generateQuiz` always evaluates to a JSON array: the fallback is an
array literal, and a successfully parsed span starts with an opening
bracket, so its parse is an array. -/
lemma generateQuiz_arr (o : GenOutcome) : ∃ l, generateQuiz o = .arr l := by
  cases o with
  | failure => exact ⟨[fallbackQuestion], rfl⟩
  | response text =>
    cases hx : extractSpan text with
    | none => exact ⟨[fallbackQuestion], by simp [generateQuiz, hx]⟩
    | some span =>
      cases hp : jsonParse span with
      | none => exact ⟨[fallbackQuestion], by simp [generateQuiz, hx, hp]⟩
      | some v =>
        have hgq : generateQuiz (.response text) = v := by simp [generateQuiz, hx, hp]
        obtain ⟨t, ht⟩ := extractSpan_head text span hx
        unfold jsonParse at hp
        split at hp
        · rename_i v2 r heq
          split at hp
          · injection hp with hv
            rw [ht] at heq
            obtain ⟨l, hl⟩ := parseF_bracket_arr _ t r v2 heq
            exact ⟨l, by rw [hgq, ← hv, hl]⟩
          · exact absurd hp (by simp)
        · exact absurd hp (by simp)

/-- C1 (counterexample): a response whose extracted span is the empty JSON
array makes `generateQuiz` return an empty sequence, against the claim
that the returned sequence is always non-empty. -/
theorem generateQuiz_empty_parsed_array :
    generateQuiz (.response ("[]".toList)) = Json.arr [] := rfl

/-- C1 (amended): `generateQuiz` is total; whenever the external call
fails, the response holds no bracket span, or the span fails to parse, it
returns exactly the one synthetic retry question; the result is always an
array, and it is empty only when the extracted span parsed to the empty
JSON array. -/
theorem generateQuiz_fallback_amended (o : GenOutcome) :
    (generationFails o = true → generateQuiz o = .arr [fallbackQuestion]) ∧
    (∃ l, generateQuiz o = .arr l) ∧
    (generateQuiz o = .arr [] →
      ∃ text span, o = .response text ∧ extractSpan text = some span ∧
        jsonParse span = some (.arr [])) := by
  refine ⟨?_, generateQuiz_arr o, ?_⟩
  · intro hf
    cases o with
    | failure => rfl
    | response text =>
      cases hx : extractSpan text with
      | none => simp [generateQuiz, hx]
      | some span =>
        simp only [generationFails, hx] at hf
        cases hp : jsonParse span with
        | none => simp [generateQuiz, hx, hp]
        | some v => rw [hp] at hf; simp at hf
  · intro he
    cases o with
    | failure => simp [generateQuiz] at he
    | response text =>
      cases hx : extractSpan text with
      | none => simp [generateQuiz, hx] at he
      | some span =>
        cases hp : jsonParse span with
        | none => simp [generateQuiz, hx, hp] at he
        | some v =>
          have hv : v = .arr [] := by simpa [generateQuiz, hx, hp] using he
          exact ⟨text, span, rfl, hx, by rw [hp, hv]⟩

/-- C1 (witness): the amended theorem applied to a failing external call. -/
theorem generateQuiz_fallback_amended_witness :
    generationFails .failure = true ∧
    generateQuiz .failure = Json.arr [fallbackQuestion] :=
  ⟨rfl, (generateQuiz_fallback_amended .failure).1 rfl⟩

/-- C2 (counterexample): the record returned on the fallback path is not
`QuizQuestion`-shaped — it carries no integer `id`, no `explanation`, and
its answer sits under `answer` rather than `correctAnswer`. -/
theorem fallback_not_question_shaped :
    generateQuiz .failure = Json.arr [fallbackQuestion] ∧
    isQuizQuestionShaped fallbackQuestion = false :=
  ⟨rfl, by decide⟩

/-- C2 (amended): the fallback record has prompt text, four option
strings, and an `answer` equal to exactly one option's text, but it has no
`id`, `explanation` or `correctAnswer` member; and the parsed path returns
the extracted array's elements without any shape validation. -/
theorem generateQuiz_record_shape_amended :
    lookupMem fallbackMembers "question" =
      some (.str "The AI could not process this PDF/Topic. Please try a shorter text or check your API Key.") ∧
    lookupMem fallbackMembers "options" =
      some (.arr [.str "Error", .str "Try Again", .str "Check Key", .str "Refresh"]) ∧
    lookupMem fallbackMembers "answer" = some (.str "Try Again") ∧
    ["Error", "Try Again", "Check Key", "Refresh"].count "Try Again" = 1 ∧
    lookupMem fallbackMembers "id" = none ∧
    lookupMem fallbackMembers "explanation" = none ∧
    lookupMem fallbackMembers "correctAnswer" = none ∧
    (∀ text span l, extractSpan text = some span → jsonParse span = some (.arr l) →
      generateQuiz (.response text) = .arr l) := by
  refine ⟨rfl, rfl, rfl, by decide, rfl, rfl, rfl, ?_⟩
  intro text span l hx hp
  simp [generateQuiz, hx, hp]

/-- C2 (witness): a parsed response is passed through unvalidated. -/
theorem generateQuiz_record_shape_amended_witness :
    extractSpan ("x[1]".toList) = some ("[1]".toList) ∧
    jsonParse ("[1]".toList) = some (.arr [.num "1"]) ∧
    generateQuiz (.response ("x[1]".toList)) = Json.arr [.num "1"] :=
  ⟨rfl, rfl, generateQuiz_record_shape_amended.2.2.2.2.2.2.2 _ _ _ rfl rfl⟩

/-- C9 (counterexample): a valid JSON array preceded by prose that itself
contains a bracket is not extracted: the span starts at the earlier
bracket, against the claim that arbitrary prefixes are tolerated. -/
theorem extractSpan_prefix_bracket :
    jsonParse ("[2,3]".toList) = some (.arr [.num "2", .num "3"]) ∧
    extractSpan ("see [1] ".toList ++ "[2,3]".toList) ≠ some ("[2,3]".toList) :=
  ⟨rfl, by decide⟩

/-- C9 (amended): the extraction selects the span from the first opening
bracket to the last closing bracket; a bracket-delimited span surrounded
by a prefix free of opening brackets and a suffix free of closing brackets
is extracted exactly, and a text missing either bracket yields failure
rather than a crash. -/
theorem extractSpan_amended :
    (∀ pre mid suf : List Char, '[' ∉ pre → ']' ∉ suf →
      extractSpan (pre ++ ('[' :: mid ++ [']']) ++ suf) = some ('[' :: mid ++ [']'])) ∧
    (∀ cs : List Char, '[' ∉ cs ∨ ']' ∉ cs → extractSpan cs = none) := by
  constructor
  · intro pre mid suf hpre hsuf
    unfold extractSpan
    have hall : ∀ a ∈ pre, (fun c => c != '[') a = true := by
      intro a ha
      simp only [bne_iff_ne, ne_eq, decide_eq_true_eq]
      exact fun hEq => hpre (hEq ▸ ha)
    have h1 : (pre ++ ('[' :: mid ++ [']']) ++ suf).dropWhile (fun c => c != '[') =
        '[' :: (mid ++ (']' :: suf)) := by
      rw [List.append_assoc]
      rw [dropWhile_append_of_all _ pre _ hall]
      rw [show ('[' :: mid ++ [']']) ++ suf = '[' :: (mid ++ (']' :: suf)) by simp]
      exact dropWhile_cons_of_false _ _ _ (by decide)
    rw [h1]
    have hall2 : ∀ a ∈ suf.reverse, (fun c => c != ']') a = true := by
      intro a ha
      simp only [bne_iff_ne, ne_eq, decide_eq_true_eq]
      exact fun hEq => hsuf (hEq ▸ (List.mem_reverse.mp ha))
    have h2 : ('[' :: (mid ++ (']' :: suf))).reverse =
        suf.reverse ++ (']' :: (mid.reverse ++ ['['])) := by
      simp
    rw [h2, dropWhile_append_of_all _ _ _ hall2,
        dropWhile_cons_of_false _ _ _ (by decide)]
    simp
  · intro cs h
    unfold extractSpan
    cases h with
    | inl h =>
      have hs : cs.dropWhile (fun c => c != '[') = [] := by
        rw [List.dropWhile_eq_nil_iff]
        intro x hx
        simp only [bne_iff_ne, ne_eq, decide_eq_true_eq]
        exact fun hEq => h (hEq ▸ hx)
      rw [hs]
      simp
    | inr h =>
      have hd : (cs.dropWhile (fun c => c != '[')).reverse.dropWhile (fun c => c != ']') = [] := by
        rw [List.dropWhile_eq_nil_iff]
        intro x hx
        simp only [bne_iff_ne, ne_eq, decide_eq_true_eq]
        intro hEq
        exact h (hEq ▸ mem_of_mem_dropWhile _ cs x (List.mem_reverse.mp hx))
      rw [hd]
      simp

/-- C9 (witness): the amended theorem on a concrete wrapped span and a
concrete bracket-free text. -/
theorem extractSpan_amended_witness :
    '[' ∉ "model says: ".toList ∧ ']' ∉ " done".toList ∧
    extractSpan ("model says: ".toList ++ ('[' :: "7,8".toList ++ [']']) ++ " done".toList) =
      some ('[' :: "7,8".toList ++ [']']) ∧
    ('[' ∉ "plain prose".toList ∨ ']' ∉ "plain prose".toList) ∧
    extractSpan ("plain prose".toList) = none :=
  ⟨by decide, by decide,
   extractSpan_amended.1 _ _ _ (by decide) (by decide),
   by decide,
   extractSpan_amended.2 _ (by decide)⟩

/-- C10: `generateStudyGuide` is total and returns either the external
model's response text or, on any failure of the external call, exactly the
static message. -/
theorem generateStudyGuide_total (topic : String) (score : Int) (o : GenOutcome) :
    (∃ text, o = .response text ∧ generateStudyGuide topic score o = String.mk text) ∨
    (o = .failure ∧
      generateStudyGuide topic score o = "Unable to generate study guide at this time.") := by
  cases o with
  | failure => exact Or.inr ⟨rfl, rfl⟩
  | response text => exact Or.inl ⟨text, rfl, rfl⟩

/-! Helper lemmas about the quiz session state machine. -/

lemma handleOptionClick_of_answered (o : String) (ui : Bool) (s : QuizState)
    (h : s.isAnswered = true) : handleOptionClick o ui s = s := by
  simp [handleOptionClick, h]

lemma handleOptionClick_not_answered (o : String) (ui : Bool) (s : QuizState)
    (q : QuizQuestion) (ha : s.isAnswered = false)
    (hq : s.questions[s.currentIndex]? = some q) :
    handleOptionClick o ui s =
      { s with
        selectedOption := some o
        isAnswered := true
        streak := if (o == q.correctAnswer) then s.streak + 1 else 0
        answers := s.answers ++
          [{ questionId := q.id
             questionText := q.question
             selectedOption := if ui then o else "Time Out"
             correctAnswer := q.correctAnswer
             isCorrect := o == q.correctAnswer }] } := by
  simp [handleOptionClick, ha, hq]

lemma step_answering (s : QuizState) (e : QuizEvent) (hc : s.completed = false)
    (he : answeringEvent e = true) :
    ∃ o ui, step s e = handleOptionClick o ui s := by
  cases e with
  | click o => exact ⟨o, true, by simp [step, hc]⟩
  | timeout => exact ⟨"__TIMEOUT__", false, by simp [step, hc, handleTimeOut]⟩
  | next => simp [answeringEvent] at he

/-- C3: at most one answer is ever recorded per question index — after any
answering event (user click or timer expiry), a further answering event for
the same state appends no second answer, because `handleOptionClick`
returns early once `isAnswered` is set. -/
theorem answer_recorded_at_most_once (s : QuizState)
    (hidx : s.currentIndex < s.questions.length)
    (e1 e2 : QuizEvent) (h1 : answeringEvent e1 = true) (h2 : answeringEvent e2 = true) :
    (step (step s e1) e2).answers = (step s e1).answers := by
  by_cases hc : s.completed = true
  · rw [show step s e1 = s from by simp [step, hc], show step s e2 = s from by simp [step, hc]]
  · have hc' : s.completed = false := by simpa using hc
    obtain ⟨o1, u1, hs1⟩ := step_answering s e1 hc' h1
    by_cases ha : s.isAnswered = true
    · rw [hs1, handleOptionClick_of_answered _ _ _ ha]
      obtain ⟨o2, u2, hs2⟩ := step_answering s e2 hc' h2
      rw [hs2, handleOptionClick_of_answered _ _ _ ha]
    · have ha' : s.isAnswered = false := by simpa using ha
      have hq : s.questions[s.currentIndex]? = some (s.questions[s.currentIndex]) :=
        List.getElem?_eq_getElem hidx
      have hprops : (handleOptionClick o1 u1 s).isAnswered = true ∧
          (handleOptionClick o1 u1 s).completed = false := by
        rw [handleOptionClick_not_answered o1 u1 s _ ha' hq]
        exact ⟨rfl, hc'⟩
      obtain ⟨o2, u2, hs2⟩ := step_answering (handleOptionClick o1 u1 s) e2 hprops.2 h2
      rw [hs1, hs2, handleOptionClick_of_answered _ _ _ hprops.1]

/-- C3 (witness): a click answers the first question; a later timer expiry
appends nothing. -/
theorem answer_recorded_at_most_once_witness :
    (initState [⟨1, "q", ["A", "B"], "A", "e"⟩]).currentIndex <
      (initState [⟨1, "q", ["A", "B"], "A", "e"⟩]).questions.length ∧
    answeringEvent (.click "A") = true ∧ answeringEvent .timeout = true ∧
    (step (step (initState [⟨1, "q", ["A", "B"], "A", "e"⟩]) (.click "A")) .timeout).answers =
      (step (initState [⟨1, "q", ["A", "B"], "A", "e"⟩]) (.click "A")).answers :=
  ⟨by decide, rfl, rfl,
   answer_recorded_at_most_once (initState [⟨1, "q", ["A", "B"], "A", "e"⟩])
     (by decide) (.click "A") .timeout rfl rfl⟩

/-- Session invariant maintained by every delivered event: the question
list is fixed; before completion the index is in bounds and the answer
count is the index plus one when the current question is answered; at
completion the counts agree; and each recorded answer's question id is the
id of the question at the same position. -/
def SessionInv (qs : List QuizQuestion) (s : QuizState) : Prop :=
  s.questions = qs ∧
  (s.completed = true → s.answers.length = qs.length) ∧
  (s.completed = false →
    s.currentIndex < qs.length ∧
    s.answers.length = s.currentIndex + (if s.isAnswered = true then 1 else 0)) ∧
  (∀ (i : Nat) (a : UserAnswer) (q : QuizQuestion), s.answers[i]? = some a → qs[i]? = some q → a.questionId = q.id)

lemma sessionInv_initState (qs : List QuizQuestion) (h : qs ≠ []) :
    SessionInv qs (initState qs) := by
  refine ⟨rfl, ?_, ?_, ?_⟩
  · intro hco
    simp [initState] at hco
  · intro _
    exact ⟨List.length_pos.mpr h, by simp [initState]⟩
  · intro i a q ha hq
    simp [initState] at ha

lemma sessionInv_optionClick (qs : List QuizQuestion) (s : QuizState) (o : String) (ui : Bool)
    (hc : s.completed = false) (hinv : SessionInv qs s) :
    SessionInv qs (handleOptionClick o ui s) := by
  obtain ⟨hQ, hcomp, hprog, hids⟩ := hinv
  by_cases ha : s.isAnswered = true
  · rw [handleOptionClick_of_answered _ _ _ ha]
    exact ⟨hQ, hcomp, hprog, hids⟩
  · have ha' : s.isAnswered = false := by simpa using ha
    have hlt : s.currentIndex < qs.length := (hprog hc).1
    have hlen : s.answers.length = s.currentIndex := by
      have := (hprog hc).2
      simpa [ha'] using this
    have hltQ : s.currentIndex < s.questions.length := by rw [hQ]; exact hlt
    have hq : s.questions[s.currentIndex]? = some (s.questions[s.currentIndex]) :=
      List.getElem?_eq_getElem hltQ
    rw [handleOptionClick_not_answered o ui s _ ha' hq]
    refine ⟨hQ, ?_, ?_, ?_⟩
    · intro hx
      rw [hc] at hx
      simp at hx
    · intro _
      refine ⟨hlt, ?_⟩
      simp [hlen]
    · intro i a q hai hqi
      by_cases hi : i < s.answers.length
      · rw [List.getElem?_append_left hi] at hai
        exact hids i a q hai hqi
      · by_cases hieq : i = s.answers.length
        · subst hieq
          rw [List.getElem?_concat_length] at hai
          injection hai with hai2
          have hq3 : qs[s.answers.length]? = some (s.questions[s.currentIndex]) := by
            rw [hlen, ← hQ]
            exact hq
          rw [hq3] at hqi
          injection hqi with hqi2
          rw [← hai2, ← hqi2]
        · have hge : s.answers.length + 1 ≤ i := by omega
          have : (s.answers ++
              [{ questionId := (s.questions[s.currentIndex]).id
                 questionText := (s.questions[s.currentIndex]).question
                 selectedOption := if ui then o else "Time Out"
                 correctAnswer := (s.questions[s.currentIndex]).correctAnswer
                 isCorrect := o == (s.questions[s.currentIndex]).correctAnswer }])[i]? =
              none := by
            apply List.getElem?_eq_none
            simpa using hge
          rw [this] at hai
          exact absurd hai (by simp)

lemma sessionInv_next (qs : List QuizQuestion) (s : QuizState)
    (hc : s.completed = false) (hinv : SessionInv qs s) :
    SessionInv qs (if s.isAnswered then handleNext s else s) := by
  obtain ⟨hQ, hcomp, hprog, hids⟩ := hinv
  by_cases ha : s.isAnswered = true
  · rw [if_pos ha]
    have hlt : s.currentIndex < qs.length := (hprog hc).1
    have hlen : s.answers.length = s.currentIndex + 1 := by
      have := (hprog hc).2
      simpa [ha] using this
    unfold handleNext
    by_cases hn : s.currentIndex < s.questions.length - 1
    · rw [if_pos hn]
      refine ⟨hQ, ?_, ?_, hids⟩
      · intro hx
        have hx2 : s.completed = true := hx
        rw [hc] at hx2
        simp at hx2
      · intro _
        refine ⟨?_, ?_⟩
        · show s.currentIndex + 1 < qs.length
          rw [hQ] at hn
          omega
        · show s.answers.length = s.currentIndex + 1 + (if false = true then 1 else 0)
          simp [hlen]
    · rw [if_neg hn]
      refine ⟨hQ, ?_, ?_, hids⟩
      · intro _
        show s.answers.length = qs.length
        rw [hQ] at hn
        omega
      · intro hx
        have hx2 : true = false := hx
        simp at hx2
  · rw [if_neg (by simpa using ha)]
    exact ⟨hQ, hcomp, hprog, hids⟩

lemma sessionInv_step (qs : List QuizQuestion) (s : QuizState) (e : QuizEvent)
    (hinv : SessionInv qs s) : SessionInv qs (step s e) := by
  by_cases hc : s.completed = true
  · rw [show step s e = s from by simp [step, hc]]
    exact hinv
  · have hc' : s.completed = false := by simpa using hc
    cases e with
    | click o =>
      rw [show step s (.click o) = handleOptionClick o true s from by simp [step, hc']]
      exact sessionInv_optionClick qs s o true hc' hinv
    | timeout =>
      rw [show step s .timeout = handleOptionClick "__TIMEOUT__" false s from by
        simp [step, hc', handleTimeOut]]
      exact sessionInv_optionClick qs s "__TIMEOUT__" false hc' hinv
    | next =>
      rw [show step s .next = if s.isAnswered then handleNext s else s from by
        simp [step, hc']]
      exact sessionInv_next qs s hc' hinv

lemma sessionInv_reachable (qs : List QuizQuestion) (s : QuizState)
    (hne : qs ≠ []) (h : Reachable qs s) : SessionInv qs s := by
  induction h with
  | refl => exact sessionInv_initState qs hne
  | tail h e ih => exact sessionInv_step qs _ e ih

/-- C4: in every reachable state of a session over a non-empty question
list, completion implies the answer list has exactly the question list's
length with answers in question order, and before completion the answer
count is at most the current index plus one. -/
theorem session_answers_aligned (qs : List QuizQuestion) (s : QuizState)
    (hne : qs ≠ []) (hr : Reachable qs s) :
    (s.completed = true → s.answers.length = s.questions.length ∧
      ∀ (i : Nat) (a : UserAnswer) (q : QuizQuestion), s.answers[i]? = some a → s.questions[i]? = some q → a.questionId = q.id) ∧
    (s.completed = false → s.answers.length ≤ s.currentIndex + 1) := by
  obtain ⟨hQ, hcomp, hprog, hids⟩ := sessionInv_reachable qs s hne hr
  constructor
  · intro hcpl
    rw [hQ]
    exact ⟨hcomp hcpl, hids⟩
  · intro hcpl
    have := (hprog hcpl).2
    by_cases ha : s.isAnswered = true <;> simp [ha] at this <;> omega

/-- C4 (witness): a one-question session answered and advanced reaches
completion with one aligned answer. -/
theorem session_answers_aligned_witness :
    ([(⟨5, "q", ["A"], "A", "e"⟩ : QuizQuestion)] ≠ []) ∧
    (((step (step (initState [⟨5, "q", ["A"], "A", "e"⟩]) (.click "A")) .next).completed = true →
      (step (step (initState [⟨5, "q", ["A"], "A", "e"⟩]) (.click "A")) .next).answers.length =
        (step (step (initState [⟨5, "q", ["A"], "A", "e"⟩]) (.click "A")) .next).questions.length ∧
      ∀ (i : Nat) (a : UserAnswer) (q : QuizQuestion),
        (step (step (initState [⟨5, "q", ["A"], "A", "e"⟩]) (.click "A")) .next).answers[i]? =
          some a →
        (step (step (initState [⟨5, "q", ["A"], "A", "e"⟩]) (.click "A")) .next).questions[i]? =
          some q →
        a.questionId = q.id) ∧
    ((step (step (initState [⟨5, "q", ["A"], "A", "e"⟩]) (.click "A")) .next).completed = false →
      (step (step (initState [⟨5, "q", ["A"], "A", "e"⟩]) (.click "A")) .next).answers.length ≤
        (step (step (initState [⟨5, "q", ["A"], "A", "e"⟩]) (.click "A")) .next).currentIndex + 1)) :=
  ⟨by decide,
   session_answers_aligned [⟨5, "q", ["A"], "A", "e"⟩] _ (by decide)
     (Reachable.tail (Reachable.tail Reachable.refl (.click "A")) .next)⟩

/-- C6: from an answered, uncompleted state a second advance after the
first is a no-op — the first advance either moves to the next question
with the answered flag cleared (so the advance button is no longer
rendered and a delivered advance is rejected by the guard) or completes
the session (after which events no longer reach the component). -/
theorem advance_idempotent (s : QuizState) (hc : s.completed = false)
    (ha : s.isAnswered = true) :
    step (step s .next) .next = step s .next ∧
    (s.currentIndex < s.questions.length - 1 →
      (step s .next).currentIndex = s.currentIndex + 1 ∧
      (step s .next).isAnswered = false ∧ (step s .next).completed = false) ∧
    (¬ s.currentIndex < s.questions.length - 1 →
      (step s .next).completed = true ∧ (step s .next).answers = s.answers) := by
  have h1 : step s .next = handleNext s := by simp [step, hc, ha]
  by_cases hn : s.currentIndex < s.questions.length - 1
  · have h2 : handleNext s =
        { s with
          currentIndex := s.currentIndex + 1
          selectedOption := none
          isAnswered := false } := by
      simp [handleNext, hn]
    refine ⟨?_, fun _ => ⟨by rw [h1, h2], by rw [h1, h2], by rw [h1, h2]; exact hc⟩,
      fun hx => absurd hn hx⟩
    rw [h1, h2]
    simp [step, hc]
  · have h2 : handleNext s = { s with completed := true } := by
      simp [handleNext, hn]
    refine ⟨?_, fun hx => absurd hx hn, fun _ => ⟨by rw [h1, h2], by rw [h1, h2]⟩⟩
    rw [h1, h2]
    simp [step]

/-- C6 (witness): advancing twice from the answered first question of a
two-question session equals advancing once. -/
theorem advance_idempotent_witness :
    (step (initState [⟨1, "a", ["A"], "A", "e"⟩, ⟨2, "b", ["B"], "B", "f"⟩])
      (.click "A")).completed = false ∧
    (step (initState [⟨1, "a", ["A"], "A", "e"⟩, ⟨2, "b", ["B"], "B", "f"⟩])
      (.click "A")).isAnswered = true ∧
    step (step (step (initState [⟨1, "a", ["A"], "A", "e"⟩, ⟨2, "b", ["B"], "B", "f"⟩])
        (.click "A")) .next) .next =
      step (step (initState [⟨1, "a", ["A"], "A", "e"⟩, ⟨2, "b", ["B"], "B", "f"⟩])
        (.click "A")) .next :=
  ⟨by decide, by decide,
   (advance_idempotent
     (step (initState [⟨1, "a", ["A"], "A", "e"⟩, ⟨2, "b", ["B"], "B", "f"⟩]) (.click "A"))
     (by decide) (by decide)).1⟩

/-- C7 (counterexample): a question whose correct answer is the literal
sentinel string makes the timeout answer correct, and the recorded marker
text can equal a real option's text — against the claim that a timeout is
always incorrect and its marker is never an option. -/
theorem timeout_marked_correct :
    (step (initState [⟨1, "q", ["Time Out", "A"], "__TIMEOUT__", "e"⟩]) .timeout).answers =
      [{ questionId := 1, questionText := "q", selectedOption := "Time Out",
         correctAnswer := "__TIMEOUT__", isCorrect := true }] ∧
    "Time Out" ∈ (⟨1, "q", ["Time Out", "A"], "__TIMEOUT__", "e"⟩ : QuizQuestion).options :=
  ⟨by decide, by decide⟩

/-- C7 (amended): provided the question's correct answer is not the
sentinel string passed by `handleTimeOut`, a timer expiry records an
incorrect answer carrying the marker text `Time Out` (distinct from every
option provided no option is that literal text); a user click records the
clicked option, correct exactly when it equals the question's correct
answer. -/
theorem timeout_answer_amended (s : QuizState) (q : QuizQuestion)
    (hc : s.completed = false) (ha : s.isAnswered = false)
    (hq : s.questions[s.currentIndex]? = some q) :
    (q.correctAnswer ≠ "__TIMEOUT__" →
      (step s .timeout).answers = s.answers ++
        [{ questionId := q.id, questionText := q.question, selectedOption := "Time Out",
           correctAnswer := q.correctAnswer, isCorrect := false }]) ∧
    (∀ o : String, ∃ b, (step s (.click o)).answers = s.answers ++ [b] ∧
      b.selectedOption = o ∧ b.correctAnswer = q.correctAnswer ∧
      (b.isCorrect = true ↔ o = q.correctAnswer)) := by
  constructor
  · intro hne
    have hstep : step s .timeout = handleOptionClick "__TIMEOUT__" false s := by
      simp [step, hc, handleTimeOut]
    rw [hstep, handleOptionClick_not_answered _ _ _ _ ha hq]
    have hbeq : ("__TIMEOUT__" == q.correctAnswer) = false :=
      beq_eq_false_iff_ne.mpr (fun hEq => hne hEq.symm)
    simp [hbeq]
  · intro o
    have hstep : step s (.click o) = handleOptionClick o true s := by
      simp [step, hc]
    refine ⟨{ questionId := q.id, questionText := q.question, selectedOption := o,
              correctAnswer := q.correctAnswer, isCorrect := o == q.correctAnswer },
            ?_, rfl, rfl, beq_iff_eq⟩
    rw [hstep, handleOptionClick_not_answered _ _ _ _ ha hq]
    simp

/-- C7 (witness): the amended theorem on a question whose correct answer
is an ordinary option text. -/
theorem timeout_answer_amended_witness :
    (step (initState [⟨2, "w", ["A", "B"], "B", "x"⟩]) .timeout).answers =
      (initState [⟨2, "w", ["A", "B"], "B", "x"⟩]).answers ++
      [{ questionId := 2, questionText := "w", selectedOption := "Time Out",
         correctAnswer := "B", isCorrect := false }] :=
  (timeout_answer_amended (initState [⟨2, "w", ["A", "B"], "B", "x"⟩])
    ⟨2, "w", ["A", "B"], "B", "x"⟩ rfl rfl rfl).1 (by decide)

/-- C5: the saved record's score is the half-up rounding of one hundred
times the count of correct answers over the question count, with the
question count (not the answer count) as denominator, and the record
carries that question count. -/
theorem handleQuizComplete_score (qid topic date : String) (questions : List QuizQuestion)
    (answers : List UserAnswer) (prev : List SavedQuiz) (_h : 0 < questions.length) :
    ∃ rec, handleQuizComplete qid topic date questions answers prev = rec :: prev ∧
      rec.score = jsMathRound
        ((100 * ((answers.filter (fun a => a.isCorrect)).length : ℚ)) /
          (questions.length : ℚ)) ∧
      rec.totalQuestions = questions.length ∧
      rec.questions = questions ∧ rec.answers = answers := by
  refine ⟨_, rfl, ?_, rfl, rfl, rfl⟩
  show jsMathRound
      (((answers.filter (fun a => a.isCorrect)).length : ℚ) / (questions.length : ℚ) * 100) = _
  congr 1
  ring

/-- C5 (witness): a one-question session with one correct answer. -/
theorem handleQuizComplete_score_witness :
    0 < [(⟨1, "q", ["A"], "A", "e"⟩ : QuizQuestion)].length ∧
    ∃ rec, handleQuizComplete "id1" "top" "date" [⟨1, "q", ["A"], "A", "e"⟩]
        [⟨1, "q", "A", "A", true⟩] [] = rec :: [] ∧
      rec.score = jsMathRound
        ((100 * ((([(⟨1, "q", "A", "A", true⟩ : UserAnswer)]).filter
            (fun a => a.isCorrect)).length : ℚ)) /
          (([(⟨1, "q", ["A"], "A", "e"⟩ : QuizQuestion)]).length : ℚ)) ∧
      rec.totalQuestions = [(⟨1, "q", ["A"], "A", "e"⟩ : QuizQuestion)].length ∧
      rec.questions = [⟨1, "q", ["A"], "A", "e"⟩] ∧
      rec.answers = [⟨1, "q", "A", "A", true⟩] :=
  ⟨by decide, handleQuizComplete_score "id1" "top" "date" _ _ _ (by decide)⟩

/-- C8 (counterexample): deleting an identifier shared by two records
removes both, not exactly one — the filter drops every match. -/
theorem deleteQuiz_removes_duplicates :
    (handleDeleteQuiz "1"
      [⟨"1", "t", "d", 0, 0, [], []⟩, ⟨"1", "t", "d", 0, 0, [], []⟩]).length ≠
    [(⟨"1", "t", "d", 0, 0, [], []⟩ : SavedQuiz), ⟨"1", "t", "d", 0, 0, [], []⟩].length - 1 :=
  by decide

/-- C8 (amended): deleting an identifier matching no record is a no-op,
and when the collection's identifiers are pairwise distinct, deleting an
existing identifier removes exactly that record and preserves the relative
order of the rest. -/
theorem handleDeleteQuiz_amended (qid : String) :
    (∀ prev : List SavedQuiz, (∀ r ∈ prev, r.id ≠ qid) → handleDeleteQuiz qid prev = prev) ∧
    (∀ (prev : List SavedQuiz) (r : SavedQuiz),
      (prev.map (fun q => q.id)).Nodup → r ∈ prev → r.id = qid →
      ∃ l1 l2, prev = l1 ++ r :: l2 ∧ handleDeleteQuiz qid prev = l1 ++ l2) := by
  constructor
  · intro prev h
    unfold handleDeleteQuiz
    rw [List.filter_eq_self]
    intro a ha
    exact bne_iff_ne.mpr (h a ha)
  · intro prev r hnd hmem hid
    induction prev with
    | nil => simp at hmem
    | cons b t ih =>
      rw [List.map_cons, List.nodup_cons] at hnd
      rcases List.mem_cons.mp hmem with hbr | ht
      · subst hbr
        refine ⟨[], t, by simp, ?_⟩
        unfold handleDeleteQuiz
        rw [List.filter_cons, if_neg (by simp [hid])]
        rw [show t.filter (fun q => q.id != qid) = t from ?_]
        · simp
        · rw [List.filter_eq_self]
          intro a ha
          refine bne_iff_ne.mpr fun hEq => hnd.1 ?_
          rw [hid, ← hEq]
          exact List.mem_map_of_mem _ ha
      · have hbid : b.id ≠ qid := by
          intro hEq
          apply hnd.1
          rw [hEq, ← hid]
          exact List.mem_map_of_mem _ ht
        obtain ⟨l1, l2, hsplit, hfilter⟩ := ih hnd.2 ht
        refine ⟨b :: l1, l2, by rw [hsplit]; simp, ?_⟩
        unfold handleDeleteQuiz at hfilter ⊢
        rw [List.filter_cons, if_pos (bne_iff_ne.mpr hbid), hfilter]
        simp

/-- C8 (witness): the amended theorem on an absent identifier and on a
distinct-identifier collection. -/
theorem handleDeleteQuiz_amended_witness :
    handleDeleteQuiz "3" [⟨"7", "t", "d", 0, 0, [], []⟩] = [⟨"7", "t", "d", 0, 0, [], []⟩] ∧
    ∃ l1 l2,
      [(⟨"7", "t", "d", 0, 0, [], []⟩ : SavedQuiz), ⟨"3", "u", "e", 1, 1, [], []⟩] =
        l1 ++ (⟨"3", "u", "e", 1, 1, [], []⟩ : SavedQuiz) :: l2 ∧
      handleDeleteQuiz "3" [⟨"7", "t", "d", 0, 0, [], []⟩, ⟨"3", "u", "e", 1, 1, [], []⟩] =
        l1 ++ l2 :=
  ⟨(handleDeleteQuiz_amended "3").1 _ (by decide),
   (handleDeleteQuiz_amended "3").2 _ _ (by decide) (by decide) rfl⟩

end GQM
